import Mathlib

/-!
# xatlas: the public interface (`src/xatlas.h`) and the pipeline behind it

`src/xatlas.h` declares the option records with their constructors, the two
enumerations of `AddMesh`, the input and output records and the entry points.
The bodies of the entry points are not part of the header; they are modelled
here from the design document, each such definition saying so in its comment.

Machine numbers: `uint32_t` and `int` values are `Nat` and `Int`; no modelled
operation can overflow them. A C `float` is its IEEE-754 binary32 bit pattern.
-/

set_option linter.dupNamespace false

namespace xatlas

/-! ## C `float` -/

/-- A C `float`: an IEEE-754 binary32 datum, held as its 32-bit pattern
(1 sign bit, 8 exponent bits, 23 fraction bits). -/
structure Float32 where
  bits : Nat
  deriving DecidableEq, Repr

namespace Float32

/-- Sign bit. -/
def sign (x : Float32) : Nat := x.bits / 2 ^ 31 % 2

/-- Biased exponent field. -/
def exponent (x : Float32) : Nat := x.bits / 2 ^ 23 % 2 ^ 8

/-- Fraction field. -/
def mantissa (x : Float32) : Nat := x.bits % 2 ^ 23

/-- Neither an infinity nor a NaN. -/
def isFinite (x : Float32) : Bool := decide (x.exponent < 255)

/-- Not a number: all exponent bits set and a non-zero fraction. -/
def isNaN (x : Float32) : Bool := decide (x.exponent = 255) && decide (x.mantissa ≠ 0)

/-- Absolute value in units of `2 ^ (-149)`, the spacing of the subnormals. Every
finite binary32 value is a whole number of these units; an infinity, read by the
same formula, lies above every finite value. -/
def magnitude (x : Float32) : Nat :=
  if x.exponent = 0 then x.mantissa else (2 ^ 23 + x.mantissa) * 2 ^ (x.exponent - 1)

/-- Signed value in units of `2 ^ (-149)`. -/
def scaled (x : Float32) : Int :=
  if x.sign = 0 then (x.magnitude : Int) else -(x.magnitude : Int)

/-- The C comparison `a < b`: false as soon as one side is a NaN. -/
def lt (a b : Float32) : Bool := !a.isNaN && !b.isNaN && decide (a.scaled < b.scaled)

/-- The C comparison `a > b`. -/
def gt (a b : Float32) : Bool := lt b a

/-- Number of low bits that rounding drops from a magnitude of `n` units, so that
24 significant bits remain: the least `s` from `start` on with `n / 2 ^ s < 2 ^ 24`. -/
def dropBits (n : Nat) : Nat → Nat → Nat
  | 0, s => s
  | fuel + 1, s => if n / 2 ^ s < 2 ^ 24 then s else dropBits n fuel (s + 1)

/-- Bit pattern of the non-negative value `t * 2 ^ shift` units, `t ≤ 2 ^ 24`;
positive infinity when the exponent leaves the finite range. -/
def encode (t shift : Nat) : Float32 :=
  if t < 2 ^ 23 then ⟨t⟩
  else if 255 ≤ shift + 1 + (t - 2 ^ 23) / 2 ^ 23 then ⟨255 * 2 ^ 23⟩
  else ⟨(shift + 1) * 2 ^ 23 + (t - 2 ^ 23)⟩

/-- Conversion of the non-negative rational `p / q` to `float`: round to nearest,
ties to even. This is how the compiler reads a literal such as `0.01f`. -/
def ofRatio (p q : Nat) : Float32 :=
  let shift := dropBits (p * 2 ^ 149 / q) 256 0
  let u := q * 2 ^ shift
  let t := p * 2 ^ 149 / u
  let r := p * 2 ^ 149 % u
  encode (if u < 2 * r then t + 1 else if 2 * r = u then t + t % 2 else t) shift

/-- A decimal literal: `digits` read as a whole number, divided by
`10 ^ fractionDigits` (`0.01f` is `ofDecimal 1 2`, `2.0f` is `ofDecimal 20 1`). -/
def ofDecimal (digits fractionDigits : Nat) : Float32 := ofRatio digits (10 ^ fractionDigits)

/-- Conversion of a non-negative integer constant to `float`. -/
def ofNat (n : Nat) : Float32 := ofRatio n 1

end Float32

/-- `FLT_MAX` of `<float.h>`: exponent field 254 and all fraction bits set,
`(2 ^ 24 - 1) * 2 ^ 104`, about `3.40282347e+38`. -/
def FLT_MAX : Float32 := ⟨0x7F7FFFFF⟩

/-! ## Options (`src/xatlas.h`, lines 14-83) -/

/-- `struct CharterOptions`. -/
structure CharterOptions where
  proxyFitMetricWeight : Float32
  roundnessMetricWeight : Float32
  straightnessMetricWeight : Float32
  normalSeamMetricWeight : Float32
  textureSeamMetricWeight : Float32
  maxChartArea : Float32
  maxBoundaryLength : Float32
  deriving DecidableEq, Repr

/-- The constructor `CharterOptions::CharterOptions()`. -/
def CharterOptions.CharterOptions : CharterOptions where
  proxyFitMetricWeight := Float32.ofDecimal 20 1
  roundnessMetricWeight := Float32.ofDecimal 1 2
  straightnessMetricWeight := Float32.ofDecimal 60 1
  normalSeamMetricWeight := Float32.ofDecimal 40 1
  textureSeamMetricWeight := Float32.ofDecimal 5 1
  maxChartArea := FLT_MAX
  maxBoundaryLength := FLT_MAX

/-- `PackMethod::Enum`. -/
inductive PackMethod.Enum where
  | TexelArea
  | ApproximateResolution
  | ExactResolution
  deriving DecidableEq, Repr, Fintype

/-- `struct PackerOptions`. -/
structure PackerOptions where
  method : PackMethod.Enum
  quality : Int
  texelArea : Float32
  resolution : Nat
  blockAlign : Bool
  conservative : Bool
  padding : Int
  deriving DecidableEq, Repr

/-- The constructor `PackerOptions::PackerOptions()`. -/
def PackerOptions.PackerOptions : PackerOptions where
  method := PackMethod.Enum.ApproximateResolution
  quality := 1
  texelArea := Float32.ofNat 8
  resolution := 512
  blockAlign := false
  conservative := false
  padding := 0

/-- Modelled from the spec: the attempt budget that `PackerOptions::quality` selects. The
code that reads `quality` is not in the header; the table is the one of the
comment above the field (lines 58-63) and of §4.4. `none` is brute force, a
search with no bound on the number of attempts. -/
def attemptBudget (quality : Int) : Option Nat :=
  if quality = 0 then none
  else if quality = 1 then some 4096
  else if quality = 2 then some 2048
  else if quality = 3 then some 1024
  else if quality = 4 then some 512
  else some 256

/-! ## Results of `AddMesh` (`src/xatlas.h`, lines 85-107) -/

/-- `AddMeshError::Enum`. -/
inductive AddMeshError.Enum where
  | Success
  | IndexOutOfRange
  | InvalidIndexCount
  deriving DecidableEq, Repr, Fintype

/-- Value of the enumerator, as C++ numbers them. -/
def AddMeshError.Enum.toNat : AddMeshError.Enum → Nat
  | .Success => 0
  | .IndexOutOfRange => 1
  | .InvalidIndexCount => 2

/-- Modelled from the spec: the fatal results of `AddMesh` (§7): `IndexOutOfRange` and
`InvalidIndexCount`. -/
def AddMeshError.Enum.isFatal : AddMeshError.Enum → Bool
  | .Success => false
  | .IndexOutOfRange => true
  | .InvalidIndexCount => true

/-- `AddMeshWarning::Enum`. -/
inductive AddMeshWarning.Enum where
  | AlreadyAddedEdge
  | DegenerateColocalEdge
  | DegenerateEdge
  | DuplicateEdge
  | ZeroLengthEdge
  deriving DecidableEq, Repr, Fintype

/-- Value of the enumerator, as C++ numbers them. -/
def AddMeshWarning.Enum.toNat : AddMeshWarning.Enum → Nat
  | .AlreadyAddedEdge => 0
  | .DegenerateColocalEdge => 1
  | .DegenerateEdge => 2
  | .DuplicateEdge => 3
  | .ZeroLengthEdge => 4

/-- A `void *`: the address it holds. -/
abbrev VoidPtr := Nat

/-- The null pointer. -/
def NULL : VoidPtr := 0

/-- A function behind `typedef void (*AddMeshWarningCallback)(AddMeshWarning::Enum warning,
uint32_t face, uint32_t index0, uint32_t index1, void *userData)`. It returns
nothing; what a call does is its effect on the caller's state `σ`. A null
callback is `none` of `Option (AddMeshWarningCallback σ)`. -/
abbrev AddMeshWarningCallback (σ : Type) :=
  AddMeshWarning.Enum → Nat → Nat → Nat → VoidPtr → σ → σ

/-! ## Input and output records (`src/xatlas.h`, lines 109-160) -/

/-- `IndexFormat::Enum`. -/
inductive IndexFormat.Enum where
  | UInt16
  | UInt32
  deriving DecidableEq, Repr

/-- `struct InputMesh`. A caller-owned buffer is the list of the elements it
holds, so the strides have no counterpart; an optional buffer that is absent
is `none`. -/
structure InputMesh where
  vertexCount : Nat
  vertexPositionData : List (Float32 × Float32 × Float32)
  vertexNormalData : Option (List (Float32 × Float32 × Float32))
  vertexUvData : Option (List (Float32 × Float32))
  indexCount : Nat
  indexData : List Nat
  indexFormat : IndexFormat.Enum
  faceMaterialData : Option (List Nat)
  deriving DecidableEq, Repr

/-- Element `j` of the index buffer. -/
def InputMesh.index (mesh : InputMesh) (j : Nat) : Nat := mesh.indexData.getD j 0

/-- Modelled from the spec: the invariant of an input mesh (§3): the index count is a
multiple of 3 and each of the `indexCount` indices is below the vertex count. -/
def InputMesh.isValid (mesh : InputMesh) : Bool :=
  decide (mesh.indexCount % 3 = 0) &&
    (List.range mesh.indexCount).all (fun j => decide (mesh.index j < mesh.vertexCount))

/-- `struct OutputChart`. -/
structure OutputChart where
  indexArray : List Nat
  indexCount : Nat
  deriving DecidableEq, Repr

/-- `struct OutputVertex`. -/
structure OutputVertex where
  uv : Float32 × Float32
  xref : Nat
  deriving DecidableEq, Repr

/-- `struct OutputMesh`. -/
structure OutputMesh where
  chartArray : List OutputChart
  chartCount : Nat
  indexArray : List Nat
  indexCount : Nat
  vertexArray : List OutputVertex
  vertexCount : Nat
  deriving DecidableEq, Repr

/-! ## Mesh Builder and `AddMesh` (design §4.1, §6, §7) -/

/-- Modelled from the spec: the mesh the Mesh Builder derives from an accepted input mesh
(§3, half-edge mesh). The builder is not in the header. The record keeps what
the later stages read: the input record, the welding flag and the decoded
triangle indices, three for each face. -/
structure Mesh where
  input : InputMesh
  useColocalVertices : Bool
  indices : List Nat
  deriving DecidableEq, Repr

/-- Number of faces of a built mesh. -/
def Mesh.faceCount (m : Mesh) : Nat := m.indices.length / 3

/-- The three input vertices of face `f`, in index-buffer order. -/
def Mesh.corners (m : Mesh) (f : Nat) : List Nat :=
  [m.indices.getD (3 * f) 0, m.indices.getD (3 * f + 1) 0, m.indices.getD (3 * f + 2) 0]

/-- Modelled from the spec: construction of the built mesh from the first `indexCount`
entries of the index buffer (§4.1). -/
def buildMesh (mesh : InputMesh) (useColocalVertices : Bool) : Mesh where
  input := mesh
  useColocalVertices := useColocalVertices
  indices := (List.range mesh.indexCount).map mesh.index

/-- Modelled from the spec: a non-fatal finding of the Mesh Builder (§4.1): its kind, the
offending face and the two vertex indices of the edge. -/
structure EdgeWarning where
  warning : AddMeshWarning.Enum
  face : Nat
  index0 : Nat
  index1 : Nat
  deriving DecidableEq, Repr

/-- Modelled from the spec: delivery of the findings (§4.1, §6): a non-null callback is
called once for each finding, in order, with the caller's user data; without a
callback nothing is called. -/
def reportWarnings {σ : Type} (warningCallback : Option (AddMeshWarningCallback σ))
    (warningCallbackUserData : VoidPtr) (findings : List EdgeWarning) (world : σ) : σ :=
  match warningCallback with
  | none => world
  | some callback =>
    findings.foldl
      (fun w e => callback e.warning e.face e.index0 e.index1 warningCallbackUserData w) world

/-- Modelled from the spec: the top-level handle (§3): it owns the built meshes, the packed
page dimensions, the number of charts and the output meshes. `struct Atlas` is
only declared in the header. -/
structure Atlas where
  meshes : List Mesh
  width : Nat
  height : Nat
  chartCount : Nat
  outputMeshes : List OutputMesh
  deriving DecidableEq, Repr

/-- Modelled from the spec: `Create()` (§6): a handle that owns nothing yet. -/
def Create : Atlas where
  meshes := []
  width := 0
  height := 0
  chartCount := 0
  outputMeshes := []

/-- Modelled from the spec: `AddMesh` (§4.1, §6, §7, §8); its body is not in the header.
The index count is checked first (§8 rejects a count that is no multiple of 3
whatever the indices are), then every index against the vertex count. A
rejected mesh leaves the atlas and the caller's state alone. An accepted one
is built and appended, and the findings of the edge classification
`classify` (the geometric tests of §4.1, whose procedure the design leaves
to the builder) are reported through the callback. -/
def AddMesh {σ : Type} (classify : InputMesh → Bool → List EdgeWarning) (atlas : Atlas)
    (mesh : InputMesh) (warningCallback : Option (AddMeshWarningCallback σ))
    (warningCallbackUserData : VoidPtr) (useColocalVertices : Bool) (world : σ) :
    AddMeshError.Enum × Atlas × σ :=
  if mesh.indexCount % 3 ≠ 0 then
    (AddMeshError.Enum.InvalidIndexCount, atlas, world)
  else if (List.range mesh.indexCount).any (fun j => decide (mesh.vertexCount ≤ mesh.index j)) then
    (AddMeshError.Enum.IndexOutOfRange, atlas, world)
  else
    (AddMeshError.Enum.Success,
      { atlas with meshes := atlas.meshes ++ [buildMesh mesh useColocalVertices] },
      reportWarnings warningCallback warningCallbackUserData (classify mesh useColocalVertices)
        world)

/-- The argument lists a call of `AddMesh` may write (line 166): the last three
parameters carry default arguments and may be left out from the right. -/
inductive AddMeshArguments (σ : Type) where
  | two (atlas : Atlas) (mesh : InputMesh)
  | three (atlas : Atlas) (mesh : InputMesh)
      (warningCallback : Option (AddMeshWarningCallback σ))
  | four (atlas : Atlas) (mesh : InputMesh)
      (warningCallback : Option (AddMeshWarningCallback σ)) (warningCallbackUserData : VoidPtr)
  | five (atlas : Atlas) (mesh : InputMesh)
      (warningCallback : Option (AddMeshWarningCallback σ)) (warningCallbackUserData : VoidPtr)
      (useColocalVertices : Bool)

/-- A call of `AddMesh` as written: each parameter left out takes the default
argument of the declaration, `warningCallback = NULL`,
`warningCallbackUserData = NULL`, `useColocalVertices = true`. -/
def AddMeshArguments.call {σ : Type} (classify : InputMesh → Bool → List EdgeWarning) :
    AddMeshArguments σ → σ → AddMeshError.Enum × Atlas × σ
  | .two atlas mesh => AddMesh classify atlas mesh none NULL true
  | .three atlas mesh cb => AddMesh classify atlas mesh cb NULL true
  | .four atlas mesh cb userData => AddMesh classify atlas mesh cb userData true
  | .five atlas mesh cb userData colocal => AddMesh classify atlas mesh cb userData colocal

/-- One `AddMesh` call of a client: the mesh and the three further arguments. -/
structure AddMeshCall (σ : Type) where
  mesh : InputMesh
  warningCallback : Option (AddMeshWarningCallback σ)
  warningCallbackUserData : VoidPtr
  useColocalVertices : Bool

/-- A client's `AddMesh` calls run in order on an atlas, the caller's state
threaded through; the result codes are dropped. -/
def addMeshes {σ : Type} (classify : InputMesh → Bool → List EdgeWarning) :
    List (AddMeshCall σ) → Atlas × σ → Atlas × σ
  | [], s => s
  | c :: cs, s =>
    addMeshes classify cs
      (AddMesh classify s.1 c.mesh c.warningCallback c.warningCallbackUserData
        c.useColocalVertices s.2).2

/-! ## Chart Builder (design §4.2) -/

/-- Modelled from the spec: a chart (§3) as its ordered set of face indices; the running
aggregates of the chart are functions of these faces. -/
abbrev Chart := List Nat

/-- Modelled from the spec: where the packer puts a chart (§3, Atlas Page): page, offset and
rotation flag. -/
structure Placement where
  page : Nat
  x : Nat
  y : Nat
  rotated : Bool
  deriving DecidableEq, Repr

/-- Modelled from the spec: the outcome of one full packing pass (§4.4): the page
dimensions and one placement for each chart, in chart order. -/
structure Packing where
  width : Nat
  height : Nat
  placements : List Placement
  deriving DecidableEq, Repr

/-- Modelled from the spec: the geometric and numerical procedures of the pipeline, which
the design names but leaves to the implementation (§1 non-goals, §4.2 cost
terms, §4.3 flattening, §4.4 placement, §9). They are parameters of the
model; `κ` is the type of a combined weighted cost.
* `adjacent m f g`: faces `f` and `g` share an edge of the built mesh;
* `allowed o m chart f`: adding `f` to `chart` is allowed under the configured
  thresholds;
* `cost o m chart f`: combined weighted cost of adding `f` to `chart`;
* `area`, `boundaryLength`: accumulated area and boundary length of a chart;
* `flatten m chart v`: the chart-local UV of input vertex `v`;
* `estimateDensity`, `adjustDensity`: the texel density a resolution-driven
  method starts from, and the adjusted density after a pass;
* `packPass po charts density`: one full packing pass;
* `place packing k uv`: the UV after the offset and rotation of chart `k`. -/
structure Numerics (κ : Type) where
  adjacent : Mesh → Nat → Nat → Bool
  allowed : CharterOptions → Mesh → Chart → Nat → Bool
  cost : CharterOptions → Mesh → Chart → Nat → κ
  area : Mesh → Chart → Float32
  boundaryLength : Mesh → Chart → Float32
  flatten : Mesh → Chart → Nat → Float32 × Float32
  estimateDensity : PackerOptions → List (Mesh × Chart) → Float32
  adjustDensity : PackerOptions → Float32 → Packing → Float32
  packPass : PackerOptions → List (Mesh × Chart) → Float32 → Packing
  place : Packing → Nat → Float32 × Float32 → Float32 × Float32

/-- Modelled from the spec: the growth candidates of a chart (§4.2): the unassigned faces
adjacent to a face of the chart and allowed under the thresholds. -/
def candidates {κ : Type} (N : Numerics κ) (o : CharterOptions) (m : Mesh) (chart : Chart)
    (unassigned : List Nat) : List Nat :=
  unassigned.filter (fun f => chart.any (fun g => N.adjacent m g f) && N.allowed o m chart f)

/-- Modelled from the spec: candidate `g` displaces the best so far (§4.2): lower cost, or
equal cost and lower face index. -/
def better {κ : Type} [LinearOrder κ] (cost : Nat → κ) (g best : Nat) : Bool :=
  decide (cost g < cost best ∨ (cost g = cost best ∧ g < best))

/-- Modelled from the spec: the candidate of lowest cost, ties going to the lower face index
(§4.2); `none` when there is no candidate. -/
def pickBest {κ : Type} [LinearOrder κ] (cost : Nat → κ) : List Nat → Option Nat
  | [] => none
  | f :: fs => some (fs.foldl (fun best g => if better cost g best then g else best) f)

/-- Modelled from the spec: the budget stop of chart growth (§4.2): the accumulated area
exceeds `maxChartArea` or the boundary length exceeds `maxBoundaryLength`. -/
def stopGrowth {κ : Type} (N : Numerics κ) (o : CharterOptions) (m : Mesh) (chart : Chart) :
    Bool :=
  Float32.gt (N.area m chart) o.maxChartArea ||
    Float32.gt (N.boundaryLength m chart) o.maxBoundaryLength

/-- Modelled from the spec: growth of one chart (§4.2). While the budgets hold and a
candidate exists, the best candidate joins the chart and leaves the
unassigned faces. Returns the frozen chart and the faces still unassigned.
The first argument bounds the number of steps; a step assigns a face, so the
number of unassigned faces is enough. -/
def growChart {κ : Type} [LinearOrder κ] (N : Numerics κ) (o : CharterOptions) (m : Mesh) :
    Nat → Chart → List Nat → Chart × List Nat
  | 0, chart, unassigned => (chart, unassigned)
  | fuel + 1, chart, unassigned =>
    if stopGrowth N o m chart then (chart, unassigned)
    else
      match pickBest (N.cost o m chart) (candidates N o m chart unassigned) with
      | none => (chart, unassigned)
      | some f => growChart N o m fuel (chart ++ [f]) (unassigned.erase f)

/-- Modelled from the spec: chart-by-chart partitioning (§4.2). A chart is seeded from the
first face still unassigned and grown; then the next chart is seeded, until
no face is left. The first argument bounds the number of charts; every chart
takes its seed, so the number of unassigned faces is enough. -/
def buildCharts {κ : Type} [LinearOrder κ] (N : Numerics κ) (o : CharterOptions) (m : Mesh) :
    Nat → List Nat → List Chart
  | 0, _ => []
  | _ + 1, [] => []
  | fuel + 1, seed :: rest =>
    let grown := growChart N o m rest.length [seed] rest
    grown.1 :: buildCharts N o m fuel grown.2

/-- Modelled from the spec: the charts of a built mesh (§4.2), from all its faces
`0 .. faceCount - 1` unassigned. -/
def computeCharts {κ : Type} [LinearOrder κ] (N : Numerics κ) (o : CharterOptions)
    (m : Mesh) : List Chart :=
  buildCharts N o m m.faceCount (List.range m.faceCount)

/-- Modelled from the spec: the charts of all meshes of the atlas, in mesh order, each with
its mesh: what the packer places (§4.4). -/
def allCharts {κ : Type} [LinearOrder κ] (N : Numerics κ) (o : CharterOptions)
    (meshes : List Mesh) : List (Mesh × Chart) :=
  meshes.flatMap (fun m => (computeCharts N o m).map (fun c => (m, c)))

/-! ## Atlas Packer (design §4.4, §7) -/

/-- Modelled from the spec: a hit of the retry loop (§4.4): the page size equals the
requested resolution in both dimensions. -/
def Packing.isExact (resolution : Nat) (p : Packing) : Bool :=
  decide (p.width = resolution) && decide (p.height = resolution)

/-- Modelled from the spec: how far a page size is from the requested resolution (§7,
"closest achieved result"): the distance summed over both dimensions. -/
def Packing.miss (resolution : Nat) (p : Packing) : Nat :=
  (p.width - resolution) + (resolution - p.width) +
    ((p.height - resolution) + (resolution - p.height))

/-- Modelled from the spec: the closest result achieved so far (§7): a later pass replaces
the best only when it is strictly closer. -/
def closer (resolution : Nat) (p best : Packing) : Packing :=
  if p.miss resolution < best.miss resolution then p else best

/-- Modelled from the spec: the retry loop of `ExactResolution` under an attempt budget
(§4.4, §7): pass at the current density; on a hit return it, else adjust the
density and retry; with the budget exhausted return the closest result. -/
def retryBounded {κ : Type} (N : Numerics κ) (po : PackerOptions)
    (charts : List (Mesh × Chart)) : Nat → Float32 → Packing → Packing
  | 0, _, best => best
  | attempts + 1, density, best =>
    let p := N.packPass po charts density
    if p.isExact po.resolution then p
    else
      retryBounded N po charts attempts (N.adjustDensity po density p)
        (closer po.resolution p best)

/-- Modelled from the spec: the retry loop of `ExactResolution` without a budget (quality 0,
§4.4): it ends only with a hit. The first argument bounds the passes the
model runs; `none` says the loop was still running. -/
def retryUnbounded {κ : Type} (N : Numerics κ) (po : PackerOptions)
    (charts : List (Mesh × Chart)) : Nat → Float32 → Option Packing
  | 0, _ => none
  | fuel + 1, density =>
    let p := N.packPass po charts density
    if p.isExact po.resolution then some p
    else retryUnbounded N po charts fuel (N.adjustDensity po density p)

/-- Modelled from the spec: the packing entry point (§4.4, §9), one strategy for each
method. `TexelArea` packs once at the caller's density,
`ApproximateResolution` once at the estimated density, `ExactResolution`
retries under the budget of `quality`, the first pass counting as an attempt. -/
def packCharts {κ : Type} (N : Numerics κ) (fuel : Nat) (po : PackerOptions)
    (charts : List (Mesh × Chart)) : Option Packing :=
  match po.method with
  | .TexelArea => some (N.packPass po charts po.texelArea)
  | .ApproximateResolution => some (N.packPass po charts (N.estimateDensity po charts))
  | .ExactResolution =>
    match attemptBudget po.quality with
    | none => retryUnbounded N po charts fuel (N.estimateDensity po charts)
    | some budget =>
      let first := N.packPass po charts (N.estimateDensity po charts)
      if first.isExact po.resolution then some first
      else
        some (retryBounded N po charts (budget - 1)
          (N.adjustDensity po (N.estimateDensity po charts) first) first)

/-! ## Output Assembler (design §4.5) -/

/-- Modelled from the spec: emission of the corners of one chart (§4.5). A corner whose
input vertex the chart has emitted before reuses that output vertex; any other
appends an output vertex with the vertex's UV and `xref`. `seen` maps the
input vertices of the chart to their output indices; it starts empty for each
chart, which duplicates a vertex shared by two charts. Returns the vertex
array and the chart's indices. -/
def emitCorners (uv : Nat → Float32 × Float32) :
    List Nat → List OutputVertex → List (Nat × Nat) → List OutputVertex × List Nat
  | [], vertices, _ => (vertices, [])
  | v :: rest, vertices, seen =>
    match seen.lookup v with
    | some i =>
      let r := emitCorners uv rest vertices seen
      (r.1, i :: r.2)
    | none =>
      let r := emitCorners uv rest (vertices ++ [⟨uv v, v⟩]) ((v, vertices.length) :: seen)
      (r.1, vertices.length :: r.2)

/-- Modelled from the spec: the charts of one mesh emitted in order (§4.5); chart number
`k` counts over the whole atlas and selects the chart's placement. -/
def assembleCharts {κ : Type} (N : Numerics κ) (packing : Packing) (m : Mesh) :
    List Chart → Nat → List OutputVertex → List OutputVertex × List OutputChart
  | [], _, vertices => (vertices, [])
  | c :: cs, k, vertices =>
    let e := emitCorners (fun v => N.place packing k (N.flatten m c v)) (c.flatMap m.corners)
      vertices []
    let r := assembleCharts N packing m cs (k + 1) e.1
    (r.1, ⟨e.2, e.2.length⟩ :: r.2)

/-- Modelled from the spec: the output mesh of one input mesh (§4.5): its charts, the shared
index array they lie in one after the other, and the vertex array. -/
def assembleMesh {κ : Type} (N : Numerics κ) (packing : Packing) (m : Mesh)
    (charts : List Chart) (base : Nat) : OutputMesh :=
  let r := assembleCharts N packing m charts base []
  { chartArray := r.2
    chartCount := r.2.length
    indexArray := r.2.flatMap OutputChart.indexArray
    indexCount := (r.2.flatMap OutputChart.indexArray).length
    vertexArray := r.1
    vertexCount := r.1.length }

/-- Modelled from the spec: one output mesh for each input mesh, in order (§4.5). -/
def assembleMeshes {κ : Type} [LinearOrder κ] (N : Numerics κ) (o : CharterOptions)
    (packing : Packing) : List Mesh → Nat → List OutputMesh
  | [], _ => []
  | m :: ms, base =>
    assembleMesh N packing m (computeCharts N o m) base ::
      assembleMeshes N o packing ms (base + (computeCharts N o m).length)

/-! ## `Generate` and the accessors (design §6) -/

/-- Modelled from the spec: `Generate` (§2, §6): charts, flattening, packing and assembly
over all meshes added so far. Its body is not in the header. `fuel` bounds
the passes of the brute-force retry loop; `none` says that loop was still
running. -/
def Generate {κ : Type} [LinearOrder κ] (N : Numerics κ) (fuel : Nat) (atlas : Atlas)
    (charterOptions : CharterOptions) (packerOptions : PackerOptions) : Option Atlas :=
  match packCharts N fuel packerOptions (allCharts N charterOptions atlas.meshes) with
  | none => none
  | some packing =>
    some
      { atlas with
        width := packing.width
        height := packing.height
        chartCount := (allCharts N charterOptions atlas.meshes).length
        outputMeshes := assembleMeshes N charterOptions packing atlas.meshes 0 }

/-- The argument lists a call of `Generate` may write (line 167): both option
parameters carry default arguments. -/
inductive GenerateArguments where
  | one (atlas : Atlas)
  | two (atlas : Atlas) (charterOptions : CharterOptions)
  | three (atlas : Atlas) (charterOptions : CharterOptions) (packerOptions : PackerOptions)

/-- The packer options a call of `Generate` runs with: the argument written, or
the default argument `PackerOptions()` of the declaration. -/
def GenerateArguments.packerOptions : GenerateArguments → PackerOptions
  | .one _ => PackerOptions.PackerOptions
  | .two _ _ => PackerOptions.PackerOptions
  | .three _ _ po => po

/-- The charter options a call of `Generate` runs with: the argument written, or
the default argument `CharterOptions()` of the declaration. -/
def GenerateArguments.charterOptions : GenerateArguments → CharterOptions
  | .one _ => CharterOptions.CharterOptions
  | .two _ co => co
  | .three _ co _ => co

/-- The atlas a call of `Generate` names. -/
def GenerateArguments.atlas : GenerateArguments → Atlas
  | .one a => a
  | .two a _ => a
  | .three a _ _ => a

/-- A call of `Generate` as written. -/
def GenerateArguments.call {κ : Type} [LinearOrder κ] (N : Numerics κ) (fuel : Nat)
    (args : GenerateArguments) : Option Atlas :=
  Generate N fuel args.atlas args.charterOptions args.packerOptions

/-- Modelled from the spec: `GetWidth` (§6). -/
def GetWidth (atlas : Atlas) : Nat := atlas.width

/-- Modelled from the spec: `GetHeight` (§6). -/
def GetHeight (atlas : Atlas) : Nat := atlas.height

/-- Modelled from the spec: `GetNumCharts` (§6). -/
def GetNumCharts (atlas : Atlas) : Nat := atlas.chartCount

/-- Modelled from the spec: `GetOutputMeshes` (§6). -/
def GetOutputMeshes (atlas : Atlas) : List OutputMesh := atlas.outputMeshes

/-! # Theorems -/

/-! ## Float facts -/

theorem Float32.magnitude_le_of_isFinite (x : Float32) (h : x.isFinite = true) :
    x.magnitude ≤ (2 ^ 24 - 1) * 2 ^ 253 := by
  have he : x.exponent < 255 := by simpa [Float32.isFinite] using h
  have hm : x.mantissa < 2 ^ 23 := Nat.mod_lt _ (by norm_num)
  unfold Float32.magnitude
  split_ifs with h0
  · have : (2:ℕ) ^ 23 ≤ (2 ^ 24 - 1) * 2 ^ 253 := by norm_num
    omega
  · have h1 : 2 ^ 23 + x.mantissa ≤ 2 ^ 24 - 1 := by
      have : (2:ℕ) ^ 24 = 2 ^ 23 + 2 ^ 23 := by norm_num
      omega
    have h2 : (2:ℕ) ^ (x.exponent - 1) ≤ 2 ^ 253 :=
      Nat.pow_le_pow_right (by norm_num) (by omega)
    exact Nat.mul_le_mul h1 h2

theorem Float32.scaled_le_magnitude (x : Float32) : x.scaled ≤ (x.magnitude : Int) := by
  unfold Float32.scaled
  split_ifs <;> omega

theorem FLT_MAX_scaled : FLT_MAX.scaled = (((2 ^ 24 - 1) * 2 ^ 253 : Nat) : Int) := by
  decide

theorem Float32.scaled_le_FLT_MAX (x : Float32) (h : x.isFinite = true) :
    x.scaled ≤ FLT_MAX.scaled := by
  rw [FLT_MAX_scaled]
  exact le_trans (Float32.scaled_le_magnitude x) (by exact_mod_cast Float32.magnitude_le_of_isFinite x h)

theorem Float32.gt_FLT_MAX_eq_false (x : Float32) (h : x.isFinite = true) :
    Float32.gt x FLT_MAX = false := by
  have := Float32.scaled_le_FLT_MAX x h
  simp only [Float32.gt, Float32.lt, Bool.and_eq_false_imp, decide_eq_false_iff_not]
  intro _ _
  omega

/-- C7: the attempt budget selected by `quality` is brute force (no bound) for 0,
4096 for 1, 2048 for 2, 1024 for 3, 512 for 4 and 256 for every other integer,
negatives included. Hence for `1 ≤ q ≤ 4` the budget is `4096 / 2 ^ (q - 1)` and
strictly decreases as `q` grows; every non-zero quality has a finite budget of
at least 256, and only quality 0 has none; the default quality 1 has the
largest finite budget, 4096. -/
theorem attemptBudget_table :
    attemptBudget 0 = none ∧ attemptBudget 1 = some 4096 ∧ attemptBudget 2 = some 2048 ∧
    attemptBudget 3 = some 1024 ∧ attemptBudget 4 = some 512 ∧
    (∀ q : Int, q < 0 ∨ 4 < q → attemptBudget q = some 256) ∧
    (∀ q : Int, 1 ≤ q → q ≤ 4 → attemptBudget q = some (4096 / 2 ^ (q - 1).toNat)) ∧
    (∀ q r : Int, 1 ≤ q → q < r → r ≤ 4 →
      ∃ a b, attemptBudget q = some a ∧ attemptBudget r = some b ∧ b < a) ∧
    (∀ q : Int, q ≠ 0 → ∃ n, attemptBudget q = some n ∧ 256 ≤ n) ∧
    (∀ q : Int, attemptBudget q = none ↔ q = 0) ∧
    attemptBudget PackerOptions.PackerOptions.quality = some 4096 ∧
    (∀ (q : Int) (n : Nat), attemptBudget q = some n → n ≤ 4096) := by
  refine ⟨rfl, rfl, rfl, rfl, rfl, ?_, ?_, ?_, ?_, ?_, rfl, ?_⟩
  · intro q hq
    unfold attemptBudget
    split_ifs <;> first | rfl | omega
  · intro q h1 h4
    obtain rfl | rfl | rfl | rfl : q = 1 ∨ q = 2 ∨ q = 3 ∨ q = 4 := by omega
    all_goals decide
  · intro q r h1 hqr h4
    obtain rfl | rfl | rfl : q = 1 ∨ q = 2 ∨ q = 3 := by omega
    · obtain rfl | rfl | rfl : r = 2 ∨ r = 3 ∨ r = 4 := by omega
      all_goals exact ⟨_, _, rfl, rfl, by decide⟩
    · obtain rfl | rfl : r = 3 ∨ r = 4 := by omega
      all_goals exact ⟨_, _, rfl, rfl, by decide⟩
    · obtain rfl : r = 4 := by omega
      exact ⟨_, _, rfl, rfl, by decide⟩
  · intro q hq
    unfold attemptBudget
    split_ifs
    · contradiction
    all_goals exact ⟨_, rfl, by decide⟩
  · intro q
    unfold attemptBudget
    split_ifs with h <;> simp [h]
  · intro q n
    unfold attemptBudget
    split_ifs <;> intro h <;> simp at h <;> omega

/-! ## Chart Builder lemmas -/

theorem foldl_better_mem {κ : Type} [LinearOrder κ] (cost : Nat → κ) (fs : List Nat) (f : Nat) :
    fs.foldl (fun best g => if better cost g best then g else best) f ∈ f :: fs := by
  induction fs generalizing f with
  | nil => simp
  | cons g gs ih =>
    simp only [List.foldl_cons]
    have := ih (if better cost g f then g else f)
    split_ifs at this ⊢ <;> simp only [List.mem_cons] at this ⊢ <;> tauto

theorem pickBest_mem {κ : Type} [LinearOrder κ] (cost : Nat → κ) (l : List Nat) (f : Nat) (h : pickBest cost l = some f) :
    f ∈ l := by
  cases l with
  | nil => simp [pickBest] at h
  | cons a as =>
    simp only [pickBest, Option.some.injEq] at h
    subst h
    exact foldl_better_mem cost as a

theorem candidates_subset {κ : Type} (N : Numerics κ) (o : CharterOptions) (m : Mesh) (chart : Chart)
    (un : List Nat) (f : Nat) (h : f ∈ candidates N o m chart un) : f ∈ un :=
  (List.mem_filter.mp h).1

theorem growChart_perm {κ : Type} [LinearOrder κ] (N : Numerics κ) (o : CharterOptions) (m : Mesh) (fuel : Nat)
    (chart : Chart) (un : List Nat) :
    ((growChart N o m fuel chart un).1 ++ (growChart N o m fuel chart un).2).Perm (chart ++ un) ∧
      (growChart N o m fuel chart un).2.length ≤ un.length ∧
      chart <+: (growChart N o m fuel chart un).1 := by
  induction fuel generalizing chart un with
  | zero => exact ⟨List.Perm.refl _, le_refl _, List.prefix_refl _⟩
  | succ fuel ih =>
    unfold growChart
    split_ifs with hstop
    · exact ⟨List.Perm.refl _, le_refl _, List.prefix_refl _⟩
    · split
      · exact ⟨List.Perm.refl _, le_refl _, List.prefix_refl _⟩
      · rename_i f hf
        have hmem : f ∈ un := candidates_subset N o m chart un f (pickBest_mem _ _ _ hf)
        obtain ⟨hp, hl, hpre⟩ := ih (chart ++ [f]) (un.erase f)
        refine ⟨hp.trans ?_, ?_, ?_⟩
        · rw [List.append_assoc]
          exact List.Perm.append_left chart (List.perm_cons_erase hmem).symm
        · exact le_trans hl (by rw [List.length_erase_of_mem hmem]; omega)
        · exact List.IsPrefix.trans (List.prefix_append chart [f]) hpre

theorem buildCharts_perm {κ : Type} [LinearOrder κ] (N : Numerics κ) (o : CharterOptions) (m : Mesh) (fuel : Nat)
    (un : List Nat) (h : un.length ≤ fuel) :
    (buildCharts N o m fuel un).flatten.Perm un ∧ ∀ c ∈ buildCharts N o m fuel un, c ≠ [] := by
  induction fuel generalizing un with
  | zero =>
    have : un = [] := List.eq_nil_of_length_eq_zero (by omega)
    subst this
    simp [buildCharts]
  | succ fuel ih =>
    cases un with
    | nil => simp [buildCharts]
    | cons seed rest =>
      simp only [buildCharts, List.flatten_cons]
      obtain ⟨hp, hl, hpre⟩ := growChart_perm N o m rest.length [seed] rest
      have hfuel : (growChart N o m rest.length [seed] rest).2.length ≤ fuel := by
        simp only [List.length_cons] at h
        omega
      obtain ⟨ihp, ihne⟩ := ih (growChart N o m rest.length [seed] rest).2 hfuel
      refine ⟨(List.Perm.append_left _ ihp).trans hp, ?_⟩
      intro c hc
      rcases List.mem_cons.mp hc with rfl | hc
      · intro hnil
        rw [hnil] at hpre
        simp at hpre
      · exact ihne c hc

theorem computeCharts_perm {κ : Type} [LinearOrder κ] (N : Numerics κ) (o : CharterOptions) (m : Mesh) :
    (computeCharts N o m).flatten.Perm (List.range m.faceCount) :=
  (buildCharts_perm N o m m.faceCount (List.range m.faceCount) (by simp)).1

theorem growChart_fuel_enough {κ : Type} [LinearOrder κ] (N : Numerics κ)
    (o : CharterOptions) (m : Mesh) (fuel : Nat) (chart : Chart) (un : List Nat)
    (h : un.length ≤ fuel) :
    growChart N o m (fuel + 1) chart un = growChart N o m fuel chart un := by
  induction fuel generalizing chart un with
  | zero =>
    have : un = [] := List.eq_nil_of_length_eq_zero (by omega)
    subst this
    simp [growChart, candidates, pickBest]
  | succ fuel ih =>
    rw [growChart, growChart.eq_2 N o m chart un fuel]
    split_ifs with hstop
    · rfl
    · cases hp : pickBest (N.cost o m chart) (candidates N o m chart un) with
      | none => rfl
      | some f =>
        have hmem : f ∈ un := candidates_subset N o m chart un f (pickBest_mem _ _ _ hp)
        exact ih (chart ++ [f]) (un.erase f) (by rw [List.length_erase_of_mem hmem]; omega)

theorem growChart_fuel_ge {κ : Type} [LinearOrder κ] (N : Numerics κ)
    (o : CharterOptions) (m : Mesh) (extra : Nat) (chart : Chart) (un : List Nat) :
    growChart N o m (un.length + extra) chart un = growChart N o m un.length chart un := by
  induction extra with
  | zero => rfl
  | succ extra ih =>
    rw [← ih, ← Nat.add_assoc]
    exact growChart_fuel_enough N o m (un.length + extra) chart un (Nat.le_add_right _ _)

/-! ## Output Assembler lemmas -/

theorem lookup_some_mem (seen : List (Nat × Nat)) (v i : Nat) (h : seen.lookup v = some i) :
    ∃ p ∈ seen, p.2 = i := by
  induction seen with
  | nil => simp [List.lookup] at h
  | cons p ps ih =>
    obtain ⟨k, j⟩ := p
    simp only [List.lookup] at h
    split at h
    · simp only [Option.some.injEq] at h
      exact ⟨(k, j), List.mem_cons_self _ _, h⟩
    · obtain ⟨q, hq, hq2⟩ := ih h
      exact ⟨q, List.mem_cons_of_mem _ hq, hq2⟩

theorem emitCorners_spec (uv : Nat → Float32 × Float32) (corners : List Nat)
    (vertices : List OutputVertex) (seen : List (Nat × Nat))
    (hseen : ∀ p ∈ seen, p.2 < vertices.length) :
    vertices <+: (emitCorners uv corners vertices seen).1 ∧
      (∀ i ∈ (emitCorners uv corners vertices seen).2,
        i < (emitCorners uv corners vertices seen).1.length) ∧
      (∀ ov ∈ (emitCorners uv corners vertices seen).1, ov ∈ vertices ∨ ov.xref ∈ corners) ∧
      (emitCorners uv corners vertices seen).2.length = corners.length := by
  induction corners generalizing vertices seen with
  | nil => simp [emitCorners]
  | cons v rest ih =>
    unfold emitCorners
    split
    · rename_i i hi
      obtain ⟨hpre, hidx, hx, hlen⟩ := ih vertices seen hseen
      dsimp only
      refine ⟨hpre, ?_, ?_, ?_⟩
      · intro j hj
        rcases List.mem_cons.mp hj with rfl | hj
        · obtain ⟨p, hp, rfl⟩ := lookup_some_mem seen v _ hi
          exact lt_of_lt_of_le (hseen p hp) hpre.length_le
        · exact hidx j hj
      · intro ov hov
        rcases hx ov hov with h | h
        · exact Or.inl h
        · exact Or.inr (List.mem_cons_of_mem _ h)
      · simp [hlen]
    · have hseen2 : ∀ p ∈ (v, vertices.length) :: seen,
          p.2 < (vertices ++ [(⟨uv v, v⟩ : OutputVertex)]).length := by
        intro p hp
        rcases List.mem_cons.mp hp with rfl | hp
        · simp
        · have := hseen p hp
          simp only [List.length_append, List.length_singleton]
          omega
      obtain ⟨hpre, hidx, hx, hlen⟩ :=
        ih (vertices ++ [(⟨uv v, v⟩ : OutputVertex)]) ((v, vertices.length) :: seen) hseen2
      dsimp only
      refine ⟨List.IsPrefix.trans (List.prefix_append _ _) hpre, ?_, ?_, ?_⟩
      · intro j hj
        rcases List.mem_cons.mp hj with rfl | hj
        · have := hpre.length_le
          simp only [List.length_append, List.length_singleton] at this
          omega
        · exact hidx j hj
      · intro ov hov
        rcases hx ov hov with h | h
        · rcases List.mem_append.mp h with h | h
          · exact Or.inl h
          · simp only [List.mem_singleton] at h
            subst h
            exact Or.inr (List.mem_cons_self _ _)
        · exact Or.inr (List.mem_cons_of_mem _ h)
      · simp [hlen]

theorem flatMap_corners_length (m : Mesh) (c : Chart) :
    (c.flatMap m.corners).length = 3 * c.length := by
  induction c with
  | nil => simp
  | cons f fs ih =>
    simp only [List.flatMap_cons, List.length_append, List.length_cons, ih]
    simp only [Mesh.corners, List.length_cons, List.length_nil]
    omega

theorem assembleCharts_spec {κ : Type} (N : Numerics κ) (packing : Packing) (m : Mesh)
    (charts : List Chart) (k : Nat) (vertices : List OutputVertex) :
    vertices <+: (assembleCharts N packing m charts k vertices).1 ∧
      (∀ c ∈ (assembleCharts N packing m charts k vertices).2, ∀ i ∈ c.indexArray,
        i < (assembleCharts N packing m charts k vertices).1.length) ∧
      (∀ ov ∈ (assembleCharts N packing m charts k vertices).1,
        ov ∈ vertices ∨ ∃ c ∈ charts, ∃ f ∈ c, ov.xref ∈ m.corners f) ∧
      (assembleCharts N packing m charts k vertices).2.map OutputChart.indexCount
        = charts.map (fun c => 3 * c.length) ∧
      (∀ c ∈ (assembleCharts N packing m charts k vertices).2,
        c.indexCount = c.indexArray.length) := by
  induction charts generalizing k vertices with
  | nil => simp [assembleCharts]
  | cons c cs ih =>
    simp only [assembleCharts]
    obtain ⟨epre, eidx, ex, elen⟩ :=
      emitCorners_spec (fun v => N.place packing k (N.flatten m c v)) (c.flatMap m.corners)
        vertices [] (by simp)
    obtain ⟨hpre, hidx, hx, hcnt, hic⟩ := ih (k + 1)
      (emitCorners (fun v => N.place packing k (N.flatten m c v)) (c.flatMap m.corners)
        vertices []).1
    have hlen3 := flatMap_corners_length m c
    refine ⟨List.IsPrefix.trans epre hpre, ?_, ?_, ?_, ?_⟩
    · intro oc hoc i hi
      rcases List.mem_cons.mp hoc with rfl | hoc
      · exact lt_of_lt_of_le (eidx i hi) hpre.length_le
      · exact hidx oc hoc i hi
    · intro ov hov
      rcases hx ov hov with h | ⟨c2, hc2, f, hf, hxr⟩
      · rcases ex ov h with h | h
        · exact Or.inl h
        · obtain ⟨f, hf, hxr⟩ := List.mem_flatMap.mp h
          exact Or.inr ⟨c, List.mem_cons_self _ _, f, hf, hxr⟩
      · exact Or.inr ⟨c2, List.mem_cons_of_mem _ hc2, f, hf, hxr⟩
    · simp only [List.map_cons, hcnt, elen, hlen3]
    · intro oc hoc
      rcases List.mem_cons.mp hoc with rfl | hoc
      · rfl
      · exact hic oc hoc

theorem AddMesh_of_isValid {σ : Type} (classify : InputMesh → Bool → List EdgeWarning)
    (atlas : Atlas) (mesh : InputMesh) (cb : Option (AddMeshWarningCallback σ))
    (userData : VoidPtr) (colocal : Bool) (world : σ) (h : mesh.isValid = true) :
    AddMesh classify atlas mesh cb userData colocal world =
      (AddMeshError.Enum.Success,
        { atlas with meshes := atlas.meshes ++ [buildMesh mesh colocal] },
        reportWarnings cb userData (classify mesh colocal) world) := by
  simp only [InputMesh.isValid, Bool.and_eq_true, decide_eq_true_eq, List.all_eq_true,
    List.mem_range] at h
  unfold AddMesh
  rw [if_neg (by omega), if_neg]
  simp only [List.any_eq_true, List.mem_range, decide_eq_true_eq, not_exists, not_and, not_le]
  exact h.2

theorem AddMesh_of_not_isValid {σ : Type} (classify : InputMesh → Bool → List EdgeWarning)
    (atlas : Atlas) (mesh : InputMesh) (cb : Option (AddMeshWarningCallback σ))
    (userData : VoidPtr) (colocal : Bool) (world : σ) (h : mesh.isValid = false) :
    (AddMesh classify atlas mesh cb userData colocal world).1 ≠ AddMeshError.Enum.Success ∧
      (AddMesh classify atlas mesh cb userData colocal world).2 = (atlas, world) := by
  unfold AddMesh
  split_ifs with h1 h2
  · exact ⟨by simp, rfl⟩
  · exact ⟨by simp, rfl⟩
  · exfalso
    have : mesh.isValid = true := by
      simp only [InputMesh.isValid, Bool.and_eq_true, decide_eq_true_eq, List.all_eq_true,
        List.mem_range]
      simp only [List.any_eq_true, List.mem_range, decide_eq_true_eq, not_exists, not_and,
        not_le] at h2
      exact ⟨by omega, h2⟩
    rw [h] at this
    exact Bool.noConfusion this

theorem addMeshes_eq {σ : Type} (classify : InputMesh → Bool → List EdgeWarning)
    (calls : List (AddMeshCall σ)) (atlas : Atlas) (world : σ) :
    (addMeshes classify calls (atlas, world)).1 =
      { atlas with
        meshes := atlas.meshes ++
          (calls.filter (fun c => c.mesh.isValid)).map
            (fun c => buildMesh c.mesh c.useColocalVertices) } := by
  induction calls generalizing atlas world with
  | nil => simp [addMeshes]
  | cons c cs ih =>
    simp only [addMeshes]
    by_cases hv : c.mesh.isValid = true
    · rw [AddMesh_of_isValid _ _ _ _ _ _ _ hv, ih]
      simp [List.filter_cons, hv]
    · have hv2 : c.mesh.isValid = false := by simpa using hv
      rw [(AddMesh_of_not_isValid classify atlas c.mesh c.warningCallback
        c.warningCallbackUserData c.useColocalVertices world hv2).2, ih]
      simp [List.filter_cons, hv2]

theorem buildMesh_indices_length (mesh : InputMesh) (colocal : Bool) :
    (buildMesh mesh colocal).indices.length = mesh.indexCount := by
  simp [buildMesh]

theorem buildMesh_faceCount (mesh : InputMesh) (colocal : Bool) :
    (buildMesh mesh colocal).faceCount = mesh.indexCount / 3 := by
  simp [Mesh.faceCount, buildMesh]

theorem buildMesh_index_lt (mesh : InputMesh) (colocal : Bool) (h : mesh.isValid = true) :
    ∀ i ∈ (buildMesh mesh colocal).indices, i < mesh.vertexCount := by
  simp only [InputMesh.isValid, Bool.and_eq_true, decide_eq_true_eq, List.all_eq_true,
    List.mem_range] at h
  intro i hi
  simp only [buildMesh, List.mem_map, List.mem_range] at hi
  obtain ⟨j, hj, rfl⟩ := hi
  exact h.2 j hj

theorem corners_mem_indices (m : Mesh) (f : Nat) (hf : f < m.faceCount) :
    ∀ v ∈ m.corners f, v ∈ m.indices := by
  have hlen : 3 * f + 2 < m.indices.length := by
    unfold Mesh.faceCount at hf
    omega
  intro v hv
  simp only [Mesh.corners, List.mem_cons, List.mem_singleton, List.not_mem_nil, or_false] at hv
  rcases hv with rfl | rfl | rfl
  · rw [List.getD_eq_getElem _ _ (by omega)]
    exact List.getElem_mem _
  · rw [List.getD_eq_getElem _ _ (by omega)]
    exact List.getElem_mem _
  · rw [List.getD_eq_getElem _ _ (by omega)]
    exact List.getElem_mem _

theorem assembleMeshes_forall₂ {α κ : Type} [LinearOrder κ] (N : Numerics κ)
    (o : CharterOptions) (packing : Packing) (g : α → Mesh) (P : α → OutputMesh → Prop)
    (xs : List α) (base : Nat)
    (h : ∀ x ∈ xs, ∀ b, P x (assembleMesh N packing (g x) (computeCharts N o (g x)) b)) :
    List.Forall₂ P xs (assembleMeshes N o packing (xs.map g) base) := by
  induction xs generalizing base with
  | nil => exact List.Forall₂.nil
  | cons x xs ih =>
    simp only [List.map_cons, assembleMeshes]
    exact List.Forall₂.cons (h x (List.mem_cons_self _ _) base)
      (ih _ (fun y hy b => h y (List.mem_cons_of_mem _ hy) b))

theorem sum_map_length_flatMap (cs : List OutputChart)
    (h : ∀ c ∈ cs, c.indexCount = c.indexArray.length) :
    (cs.flatMap OutputChart.indexArray).length = (cs.map OutputChart.indexCount).sum := by
  induction cs with
  | nil => rfl
  | cons c cs ih =>
    simp only [List.flatMap_cons, List.length_append, List.map_cons, List.sum_cons]
    rw [ih (fun d hd => h d (List.mem_cons_of_mem _ hd)), h c (List.mem_cons_self _ _)]

theorem sum_map_three_mul (cs : List Chart) :
    (cs.map (fun chart => 3 * chart.length)).sum = 3 * (cs.map List.length).sum := by
  induction cs with
  | nil => rfl
  | cons c cs ih =>
    simp only [List.map_cons, List.sum_cons, ih]
    omega

theorem assembleMesh_counts {κ : Type} (N : Numerics κ) (packing : Packing) (m : Mesh)
    (charts : List Chart) (base : Nat) :
    (assembleMesh N packing m charts base).chartArray.map OutputChart.indexCount =
        charts.map (fun chart => 3 * chart.length) ∧
      (assembleMesh N packing m charts base).indexCount =
        ((assembleMesh N packing m charts base).chartArray.map OutputChart.indexCount).sum ∧
      (assembleMesh N packing m charts base).indexCount =
        (assembleMesh N packing m charts base).indexArray.length ∧
      (assembleMesh N packing m charts base).chartCount =
        (assembleMesh N packing m charts base).chartArray.length ∧
      (assembleMesh N packing m charts base).vertexCount =
        (assembleMesh N packing m charts base).vertexArray.length := by
  obtain ⟨-, -, -, hcnt, hic⟩ := assembleCharts_spec N packing m charts base []
  exact ⟨hcnt, sum_map_length_flatMap _ hic, rfl, rfl, rfl⟩

theorem lookup_some_pair (seen : List (Nat × Nat)) (v i : Nat) (h : seen.lookup v = some i) :
    (v, i) ∈ seen := by
  induction seen with
  | nil => simp [List.lookup] at h
  | cons p ps ih =>
    obtain ⟨k, j⟩ := p
    simp only [List.lookup] at h
    split at h
    · rename_i hk
      simp only [Option.some.injEq] at h
      have : v = k := by simpa using hk
      subst this
      subst h
      exact List.mem_cons_self _ _
    · exact List.mem_cons_of_mem _ (ih h)

theorem getElem?_extend {α : Type} (a b : List α) (i : Nat) (x : α) (hab : a <+: b)
    (h : a[i]? = some x) : b[i]? = some x := by
  obtain ⟨t, rfl⟩ := hab
  have hi : i < a.length := by
    by_contra hn
    rw [List.getElem?_eq_none (by omega)] at h
    exact Option.noConfusion h
  rw [List.getElem?_append_left hi]
  exact h

theorem map_xref_extend (a b : List OutputVertex) (l : List Nat) (xs : List Nat)
    (hab : a <+: b)
    (h : l.map (fun i => (a[i]?).map OutputVertex.xref) = xs.map some) :
    l.map (fun i => (b[i]?).map OutputVertex.xref) = xs.map some := by
  induction l generalizing xs with
  | nil => simpa using h
  | cons i is ih =>
    cases xs with
    | nil => simp at h
    | cons x xs =>
      simp only [List.map_cons, List.cons.injEq] at h ⊢
      obtain ⟨h1, h2⟩ := h
      refine ⟨?_, ih xs h2⟩
      cases hai : a[i]? with
      | none => rw [hai] at h1; simp at h1
      | some ov =>
        rw [hai] at h1
        rw [getElem?_extend a b i ov hab hai]
        exact h1

theorem emitCorners_xref (uv : Nat → Float32 × Float32) (corners : List Nat)
    (vertices : List OutputVertex) (seen : List (Nat × Nat))
    (hseen : ∀ p ∈ seen, (vertices[p.2]?).map OutputVertex.xref = some p.1) :
    (emitCorners uv corners vertices seen).2.map
        (fun i => ((emitCorners uv corners vertices seen).1[i]?).map OutputVertex.xref) =
      corners.map some := by
  induction corners generalizing vertices seen with
  | nil => simp [emitCorners]
  | cons v rest ih =>
    have hbound : ∀ (vs : List OutputVertex) (sn : List (Nat × Nat)),
        (∀ p ∈ sn, (vs[p.2]?).map OutputVertex.xref = some p.1) →
        ∀ p ∈ sn, p.2 < vs.length := by
      intro vs sn hs p hp
      by_contra hn
      have := hs p hp
      rw [List.getElem?_eq_none (by omega)] at this
      simp at this
    unfold emitCorners
    split
    · rename_i i hi
      dsimp only
      have hpre := (emitCorners_spec uv rest vertices seen (hbound vertices seen hseen)).1
      simp only [List.map_cons, List.cons.injEq]
      refine ⟨?_, ih vertices seen hseen⟩
      have hmem := lookup_some_pair seen v i hi
      have hx := hseen (v, i) hmem
      dsimp only at hx
      cases hvi : vertices[i]? with
      | none => rw [hvi] at hx; simp at hx
      | some ov =>
        rw [hvi] at hx
        rw [getElem?_extend _ _ i ov hpre hvi]
        exact hx
    · dsimp only
      have hseen2 : ∀ p ∈ (v, vertices.length) :: seen,
          ((vertices ++ [(⟨uv v, v⟩ : OutputVertex)])[p.2]?).map OutputVertex.xref
            = some p.1 := by
        intro p hp
        rcases List.mem_cons.mp hp with rfl | hp
        · simp
        · have hb := hbound vertices seen hseen p hp
          rw [List.getElem?_append_left hb]
          exact hseen p hp
      have hpre := (emitCorners_spec uv rest (vertices ++ [(⟨uv v, v⟩ : OutputVertex)])
        ((v, vertices.length) :: seen) (hbound _ _ hseen2)).1
      simp only [List.map_cons, List.cons.injEq]
      refine ⟨?_, ih _ _ hseen2⟩
      have hnew : (vertices ++ [(⟨uv v, v⟩ : OutputVertex)])[vertices.length]? =
          some ⟨uv v, v⟩ := by simp
      rw [getElem?_extend _ _ _ _ hpre hnew]
      rfl

theorem assembleCharts_xref {κ : Type} (N : Numerics κ) (packing : Packing) (m : Mesh)
    (charts : List Chart) (k : Nat) (vertices : List OutputVertex) :
    List.Forall₂
      (fun (chart : Chart) (oc : OutputChart) =>
        oc.indexArray.map
            (fun i => ((assembleCharts N packing m charts k vertices).1[i]?).map
              OutputVertex.xref) =
          (chart.flatMap m.corners).map some)
      charts (assembleCharts N packing m charts k vertices).2 := by
  induction charts generalizing k vertices with
  | nil => exact List.Forall₂.nil
  | cons c cs ih =>
    simp only [assembleCharts]
    have hpre := (assembleCharts_spec N packing m cs (k + 1)
      (emitCorners (fun v => N.place packing k (N.flatten m c v)) (c.flatMap m.corners)
        vertices []).1).1
    refine List.Forall₂.cons ?_ (ih (k + 1) _)
    exact map_xref_extend _ _ _ _ hpre
      (emitCorners_xref _ (c.flatMap m.corners) vertices [] (by simp))

theorem buildMesh_corners (mesh : InputMesh) (colocal : Bool) (f : Nat)
    (hf : f < mesh.indexCount / 3) :
    (buildMesh mesh colocal).corners f =
      [mesh.index (3 * f), mesh.index (3 * f + 1), mesh.index (3 * f + 2)] := by
  have key : ∀ j, j < mesh.indexCount →
      ((List.range mesh.indexCount).map mesh.index).getD j 0 = mesh.index j := by
    intro j hj
    rw [List.getD_eq_getElem _ _ (by simpa using hj)]
    simp
  simp only [Mesh.corners, buildMesh]
  rw [key _ (by omega), key _ (by omega), key _ (by omega)]

theorem flatMap_corners_eq (mesh : InputMesh) (colocal : Bool) (chart : Chart)
    (h : ∀ f ∈ chart, f < mesh.indexCount / 3) :
    chart.flatMap (buildMesh mesh colocal).corners =
      chart.flatMap
        (fun f => [mesh.index (3 * f), mesh.index (3 * f + 1), mesh.index (3 * f + 2)]) := by
  induction chart with
  | nil => rfl
  | cons f fs ih =>
    simp only [List.flatMap_cons]
    rw [buildMesh_corners mesh colocal f (h f (List.mem_cons_self _ _)),
      ih (fun g hg => h g (List.mem_cons_of_mem _ hg))]

theorem forall₂_imp_mem {α β : Type} (P Q : α → β → Prop) (l : List α) (r : List β)
    (h : List.Forall₂ P l r) (himp : ∀ a ∈ l, ∀ b, P a b → Q a b) : List.Forall₂ Q l r := by
  induction h with
  | nil => exact List.Forall₂.nil
  | cons hab _ ih =>
    exact List.Forall₂.cons (himp _ (List.mem_cons_self _ _) _ hab)
      (ih (fun a ha b => himp a (List.mem_cons_of_mem _ ha) b))

theorem Generate_isSome {κ : Type} [LinearOrder κ] (N : Numerics κ) (fuel : Nat)
    (atlas : Atlas) (co : CharterOptions) (po : PackerOptions)
    (h : po.method ≠ PackMethod.Enum.ExactResolution ∨ po.quality ≠ 0) :
    (Generate N fuel atlas co po).isSome = true := by
  have hp : (packCharts N fuel po (allCharts N co atlas.meshes)).isSome = true := by
    unfold packCharts
    split
    · rfl
    · rfl
    · rename_i hm
      have hq : po.quality ≠ 0 := by
        rcases h with h | h
        · exact absurd hm h
        · exact h
      have hb : attemptBudget po.quality ≠ none := by
        unfold attemptBudget
        split_ifs <;> simp_all
      split
      · rename_i hn
        exact absurd hn hb
      · dsimp only
        split_ifs <;> rfl
  unfold Generate
  split
  · rename_i hn
    rw [hn] at hp
    exact Bool.noConfusion hp
  · rfl

theorem Generate_outputMeshes {κ : Type} [LinearOrder κ] (N : Numerics κ) (fuel : Nat)
    (atlas atlas' : Atlas) (co : CharterOptions) (po : PackerOptions)
    (h : Generate N fuel atlas co po = some atlas') :
    ∃ packing, packCharts N fuel po (allCharts N co atlas.meshes) = some packing ∧
      atlas'.meshes = atlas.meshes ∧ atlas'.width = packing.width ∧
      atlas'.height = packing.height ∧
      atlas'.chartCount = (allCharts N co atlas.meshes).length ∧
      atlas'.outputMeshes = assembleMeshes N co packing atlas.meshes 0 := by
  unfold Generate at h
  split at h
  · exact Option.noConfusion h
  · rename_i packing hp
    simp only [Option.some.injEq] at h
    subst h
    exact ⟨packing, hp, rfl, rfl, rfl, rfl, rfl⟩

/-- C2: for every sequence of `AddMesh` calls on a fresh atlas followed by
`Generate`: `Generate` returns (always, unless the method is `ExactResolution`
with brute-force quality 0), and whenever it returns, its output meshes
correspond one to one, in order, to the accepted input meshes, and for each of
them the chart index counts sum to the input `indexCount` (as does the mesh's
own `indexCount`), chart `k` holds three indices for each face of chart `k` of
the partition, the chart face counts sum to `indexCount / 3`, every face below
`indexCount / 3` occurs exactly once over all charts, and the charts hold no
other face. The output charts are these charts: the mesh's index array is the
output charts' index arrays one after the other, and the indices of output
chart `k`, read through the `xref` of the output vertices they select, are the
index-buffer triples `index (3 f), index (3 f + 1), index (3 f + 2)` of the
faces `f` of chart `k`, in chart order. -/
theorem generate_charts_partition {σ κ : Type} [LinearOrder κ]
    (classify : InputMesh → Bool → List EdgeWarning) (calls : List (AddMeshCall σ))
    (world : σ) (N : Numerics κ) (fuel : Nat) (co : CharterOptions) (po : PackerOptions) :
    ((po.method ≠ PackMethod.Enum.ExactResolution ∨ po.quality ≠ 0) →
      (Generate N fuel (addMeshes classify calls (Create, world)).1 co po).isSome = true) ∧
    ∀ atlas', Generate N fuel (addMeshes classify calls (Create, world)).1 co po = some atlas' →
      List.Forall₂
        (fun (c : AddMeshCall σ) (om : OutputMesh) =>
          (om.chartArray.map OutputChart.indexCount).sum = c.mesh.indexCount ∧
          om.indexCount = c.mesh.indexCount ∧
          om.chartCount = om.chartArray.length ∧
          om.chartArray.map OutputChart.indexCount =
            (computeCharts N co (buildMesh c.mesh c.useColocalVertices)).map
              (fun chart => 3 * chart.length) ∧
          ((computeCharts N co (buildMesh c.mesh c.useColocalVertices)).map List.length).sum =
            c.mesh.indexCount / 3 ∧
          (∀ f, f < c.mesh.indexCount / 3 →
            ((computeCharts N co (buildMesh c.mesh c.useColocalVertices)).map
              (List.count f)).sum = 1) ∧
          (∀ chart ∈ computeCharts N co (buildMesh c.mesh c.useColocalVertices),
            ∀ f ∈ chart, f < c.mesh.indexCount / 3) ∧
          om.indexArray = om.chartArray.flatMap OutputChart.indexArray ∧
          om.indexCount = om.indexArray.length ∧
          (∀ oc ∈ om.chartArray, oc.indexCount = oc.indexArray.length) ∧
          List.Forall₂
            (fun (chart : Chart) (oc : OutputChart) =>
              oc.indexArray.map (fun i => (om.vertexArray[i]?).map OutputVertex.xref) =
                (chart.flatMap
                  (fun f =>
                    [c.mesh.index (3 * f), c.mesh.index (3 * f + 1),
                      c.mesh.index (3 * f + 2)])).map some)
            (computeCharts N co (buildMesh c.mesh c.useColocalVertices)) om.chartArray)
        (calls.filter (fun c => c.mesh.isValid)) (GetOutputMeshes atlas') := by
  refine ⟨Generate_isSome N fuel _ co po, ?_⟩
  intro atlas' h
  obtain ⟨packing, -, -, -, -, -, hout⟩ := Generate_outputMeshes N fuel _ atlas' co po h
  rw [GetOutputMeshes, hout, addMeshes_eq]
  simp only [Create, List.nil_append]
  apply assembleMeshes_forall₂ N co packing
  intro c hc b
  have hv : c.mesh.isValid = true := (List.mem_filter.mp hc).2
  have hmod : c.mesh.indexCount % 3 = 0 := by
    simp only [InputMesh.isValid, Bool.and_eq_true, decide_eq_true_eq] at hv
    exact hv.1
  obtain ⟨hcnt, hsum, hil, hcc, -⟩ := assembleMesh_counts N packing
    (buildMesh c.mesh c.useColocalVertices)
    (computeCharts N co (buildMesh c.mesh c.useColocalVertices)) b
  obtain ⟨-, -, -, -, hic⟩ := assembleCharts_spec N packing
    (buildMesh c.mesh c.useColocalVertices)
    (computeCharts N co (buildMesh c.mesh c.useColocalVertices)) b []
  have hperm := computeCharts_perm N co (buildMesh c.mesh c.useColocalVertices)
  rw [buildMesh_faceCount] at hperm
  have hlen : ((computeCharts N co (buildMesh c.mesh c.useColocalVertices)).map
      List.length).sum = c.mesh.indexCount / 3 := by
    rw [← List.length_flatten, hperm.length_eq, List.length_range]
  have htotal : ((assembleMesh N packing (buildMesh c.mesh c.useColocalVertices)
      (computeCharts N co (buildMesh c.mesh c.useColocalVertices)) b).chartArray.map
        OutputChart.indexCount).sum = c.mesh.indexCount := by
    rw [hcnt, sum_map_three_mul, hlen]
    omega
  have hfaces : ∀ chart ∈ computeCharts N co (buildMesh c.mesh c.useColocalVertices),
      ∀ f ∈ chart, f < c.mesh.indexCount / 3 := by
    intro chart hchart f hf
    have : f ∈ (computeCharts N co (buildMesh c.mesh c.useColocalVertices)).flatten :=
      List.mem_flatten.mpr ⟨chart, hchart, hf⟩
    exact List.mem_range.mp (hperm.mem_iff.mp this)
  refine ⟨htotal, hsum.trans htotal, hcc, hcnt, hlen, ?_, hfaces, rfl, hil, hic, ?_⟩
  · intro f hf
    rw [← List.count_flatten, hperm.count_eq]
    exact List.count_eq_one_of_mem (List.nodup_range _) (List.mem_range.mpr hf)
  · refine forall₂_imp_mem _ _ _ _
      (assembleCharts_xref N packing (buildMesh c.mesh c.useColocalVertices)
        (computeCharts N co (buildMesh c.mesh c.useColocalVertices)) b []) ?_
    intro chart hchart oc hxr
    rw [← flatMap_corners_eq c.mesh c.useColocalVertices chart (hfaces chart hchart)]
    exact hxr

/-- C3: for every sequence of `AddMesh` calls on a fresh atlas followed by
`Generate`: whenever `Generate` returns (it does, unless the method is
`ExactResolution` with brute-force quality 0), each output mesh `om`, paired
with the accepted input mesh it comes from, has every entry of `om.indexArray`
and of every chart's `indexArray` below `om.vertexCount`, and every
`om.vertexArray[i].xref` below the `vertexCount` of that input mesh; the count
fields are the lengths of their arrays. -/
theorem generate_indices_valid {σ κ : Type} [LinearOrder κ]
    (classify : InputMesh → Bool → List EdgeWarning) (calls : List (AddMeshCall σ))
    (world : σ) (N : Numerics κ) (fuel : Nat) (co : CharterOptions) (po : PackerOptions) :
    ((po.method ≠ PackMethod.Enum.ExactResolution ∨ po.quality ≠ 0) →
      (Generate N fuel (addMeshes classify calls (Create, world)).1 co po).isSome = true) ∧
    ∀ atlas', Generate N fuel (addMeshes classify calls (Create, world)).1 co po = some atlas' →
      List.Forall₂
        (fun (c : AddMeshCall σ) (om : OutputMesh) =>
          (∀ i ∈ om.indexArray, i < om.vertexCount) ∧
          (∀ oc ∈ om.chartArray, ∀ i ∈ oc.indexArray, i < om.vertexCount) ∧
          (∀ ov ∈ om.vertexArray, ov.xref < c.mesh.vertexCount) ∧
          om.vertexCount = om.vertexArray.length ∧
          om.indexCount = om.indexArray.length ∧
          (∀ oc ∈ om.chartArray, oc.indexCount = oc.indexArray.length))
        (calls.filter (fun c => c.mesh.isValid)) (GetOutputMeshes atlas') := by
  refine ⟨Generate_isSome N fuel _ co po, ?_⟩
  intro atlas' h
  obtain ⟨packing, -, -, -, -, -, hout⟩ := Generate_outputMeshes N fuel _ atlas' co po h
  rw [GetOutputMeshes, hout, addMeshes_eq]
  simp only [Create, List.nil_append]
  apply assembleMeshes_forall₂ N co packing
  intro c hc b
  have hv : c.mesh.isValid = true := (List.mem_filter.mp hc).2
  obtain ⟨-, hidx, hx, -, hic⟩ := assembleCharts_spec N packing
    (buildMesh c.mesh c.useColocalVertices)
    (computeCharts N co (buildMesh c.mesh c.useColocalVertices)) b []
  have hperm := computeCharts_perm N co (buildMesh c.mesh c.useColocalVertices)
  refine ⟨?_, hidx, ?_, rfl, rfl, hic⟩
  · intro i hi
    obtain ⟨oc, hoc, hi2⟩ := List.mem_flatMap.mp hi
    exact hidx oc hoc i hi2
  · intro ov hov
    rcases hx ov hov with h0 | ⟨chart, hchart, f, hf, hxr⟩
    · exact absurd h0 (List.not_mem_nil _)
    · have hflat : f ∈ (computeCharts N co (buildMesh c.mesh c.useColocalVertices)).flatten :=
        List.mem_flatten.mpr ⟨chart, hchart, hf⟩
      have hlt : f < (buildMesh c.mesh c.useColocalVertices).faceCount :=
        List.mem_range.mp (hperm.mem_iff.mp hflat)
      exact buildMesh_index_lt c.mesh c.useColocalVertices hv _
        (corners_mem_indices _ f hlt _ hxr)

/-- C1: `AddMesh` returns `InvalidIndexCount` when `indexCount` is not a multiple of
3; otherwise `IndexOutOfRange` when one of the `indexCount` indices is at
least `vertexCount`; otherwise `Success`, and the built mesh is appended. The
result does not depend on the edge classification, so degenerate geometry
never changes it. Whenever the result is not `Success`, the atlas and the
caller's state come back exactly as they were, so that `Generate` yields what
it yields without the rejected call. -/
theorem addMesh_result {σ κ : Type} [LinearOrder κ]
    (classify : InputMesh → Bool → List EdgeWarning) (atlas : Atlas) (mesh : InputMesh)
    (cb : Option (AddMeshWarningCallback σ)) (userData : VoidPtr) (colocal : Bool)
    (world : σ) :
    (mesh.indexCount % 3 ≠ 0 →
      (AddMesh classify atlas mesh cb userData colocal world).1 =
        AddMeshError.Enum.InvalidIndexCount) ∧
    (mesh.indexCount % 3 = 0 → (∃ j, j < mesh.indexCount ∧ mesh.vertexCount ≤ mesh.index j) →
      (AddMesh classify atlas mesh cb userData colocal world).1 =
        AddMeshError.Enum.IndexOutOfRange) ∧
    (mesh.indexCount % 3 = 0 → (∀ j, j < mesh.indexCount → mesh.index j < mesh.vertexCount) →
      (AddMesh classify atlas mesh cb userData colocal world).1 = AddMeshError.Enum.Success ∧
      (AddMesh classify atlas mesh cb userData colocal world).2.1.meshes =
        atlas.meshes ++ [buildMesh mesh colocal]) ∧
    (∀ classify2 : InputMesh → Bool → List EdgeWarning,
      (AddMesh classify2 atlas mesh cb userData colocal world).1 =
        (AddMesh classify atlas mesh cb userData colocal world).1) ∧
    ((AddMesh classify atlas mesh cb userData colocal world).1 ≠ AddMeshError.Enum.Success →
      (AddMesh classify atlas mesh cb userData colocal world).2.1 = atlas ∧
      (AddMesh classify atlas mesh cb userData colocal world).2.2 = world ∧
      ∀ (N : Numerics κ) (fuel : Nat) (co : CharterOptions) (po : PackerOptions),
        Generate N fuel (AddMesh classify atlas mesh cb userData colocal world).2.1 co po =
          Generate N fuel atlas co po) := by
  refine ⟨?_, ?_, ?_, ?_, ?_⟩
  · intro h
    unfold AddMesh
    rw [if_pos h]
  · intro h ⟨j, hj, hle⟩
    unfold AddMesh
    rw [if_neg (by omega), if_pos]
    simp only [List.any_eq_true, List.mem_range, decide_eq_true_eq]
    exact ⟨j, hj, hle⟩
  · intro h hall
    have hv : mesh.isValid = true := by
      simp only [InputMesh.isValid, Bool.and_eq_true, decide_eq_true_eq, List.all_eq_true,
        List.mem_range]
      exact ⟨h, hall⟩
    rw [AddMesh_of_isValid classify atlas mesh cb userData colocal world hv]
    exact ⟨rfl, rfl⟩
  · intro classify2
    unfold AddMesh
    split_ifs <;> rfl
  · intro h
    have hv : mesh.isValid = false := by
      by_contra hv
      have hv2 : mesh.isValid = true := by simpa using hv
      rw [AddMesh_of_isValid classify atlas mesh cb userData colocal world hv2] at h
      exact h rfl
    have h2 := (AddMesh_of_not_isValid classify atlas mesh cb userData colocal world hv).2
    rw [h2]
    exact ⟨rfl, rfl, fun _ _ _ _ => rfl⟩

/-- C8: a default-constructed `CharterOptions` has the weights 2.0, the `float`
nearest to 0.01 (within half a unit in the last place of 1/100), 6.0, 4.0 and
0.5, all five strictly positive, and `maxChartArea = maxBoundaryLength =
FLT_MAX`, which is finite and at least every finite `float`. Hence no finite
value exceeds either budget, and the budget stop of chart growth is false for
every chart of finite area and boundary length. -/
theorem charterOptions_defaults :
    CharterOptions.CharterOptions.proxyFitMetricWeight.scaled = ((2 * 2 ^ 149 : Nat) : Int) ∧
    CharterOptions.CharterOptions.roundnessMetricWeight.bits = 0x3C23D70A ∧
    (CharterOptions.CharterOptions.roundnessMetricWeight.sign = 0 ∧
      100 * CharterOptions.CharterOptions.roundnessMetricWeight.magnitude ≤ 2 ^ 149 ∧
      2 * (2 ^ 149 - 100 * CharterOptions.CharterOptions.roundnessMetricWeight.magnitude) ≤
        100 * 2 ^ 119) ∧
    CharterOptions.CharterOptions.straightnessMetricWeight.scaled =
      ((6 * 2 ^ 149 : Nat) : Int) ∧
    CharterOptions.CharterOptions.normalSeamMetricWeight.scaled = ((4 * 2 ^ 149 : Nat) : Int) ∧
    CharterOptions.CharterOptions.textureSeamMetricWeight.scaled = ((2 ^ 148 : Nat) : Int) ∧
    (Float32.gt CharterOptions.CharterOptions.proxyFitMetricWeight (Float32.ofNat 0) = true ∧
      Float32.gt CharterOptions.CharterOptions.roundnessMetricWeight (Float32.ofNat 0) = true ∧
      Float32.gt CharterOptions.CharterOptions.straightnessMetricWeight (Float32.ofNat 0) = true ∧
      Float32.gt CharterOptions.CharterOptions.normalSeamMetricWeight (Float32.ofNat 0) = true ∧
      Float32.gt CharterOptions.CharterOptions.textureSeamMetricWeight (Float32.ofNat 0) = true) ∧
    CharterOptions.CharterOptions.maxChartArea = FLT_MAX ∧
    CharterOptions.CharterOptions.maxBoundaryLength = FLT_MAX ∧
    FLT_MAX.isFinite = true ∧
    (∀ x : Float32, x.isFinite = true → x.scaled ≤ FLT_MAX.scaled) ∧
    (∀ x : Float32, x.isFinite = true →
      Float32.gt x CharterOptions.CharterOptions.maxChartArea = false ∧
      Float32.gt x CharterOptions.CharterOptions.maxBoundaryLength = false) ∧
    (∀ (κ : Type) (N : Numerics κ) (m : Mesh) (chart : Chart),
      (N.area m chart).isFinite = true → (N.boundaryLength m chart).isFinite = true →
      stopGrowth N CharterOptions.CharterOptions m chart = false) := by
  refine ⟨by decide, by decide, by decide, by decide, by decide, by decide, by decide, rfl, rfl,
    by decide, Float32.scaled_le_FLT_MAX, ?_, ?_⟩
  · intro x hx
    exact ⟨Float32.gt_FLT_MAX_eq_false x hx, Float32.gt_FLT_MAX_eq_false x hx⟩
  · intro κ N m chart ha hb
    unfold stopGrowth
    rw [show CharterOptions.CharterOptions.maxChartArea = FLT_MAX from rfl,
      show CharterOptions.CharterOptions.maxBoundaryLength = FLT_MAX from rfl,
      Float32.gt_FLT_MAX_eq_false _ ha, Float32.gt_FLT_MAX_eq_false _ hb]
    rfl

/-- C6: a default-constructed `PackerOptions` has `method =
ApproximateResolution` (not `ExactResolution`), `quality = 1` (not 0),
`texelArea = 8`, `resolution = 512`, `blockAlign = false`, `conservative =
false` and `padding = 0`. A call of `Generate` runs with method
`ExactResolution` only if it writes its third argument with that method; a
call that leaves it out runs with the default options, for which the packer
makes the single `ApproximateResolution` pass. -/
theorem packerOptions_defaults :
    PackerOptions.PackerOptions.method = PackMethod.Enum.ApproximateResolution ∧
    PackerOptions.PackerOptions.method ≠ PackMethod.Enum.ExactResolution ∧
    PackerOptions.PackerOptions.quality = 1 ∧
    PackerOptions.PackerOptions.quality ≠ 0 ∧
    PackerOptions.PackerOptions.texelArea.scaled = ((8 * 2 ^ 149 : Nat) : Int) ∧
    PackerOptions.PackerOptions.resolution = 512 ∧
    PackerOptions.PackerOptions.blockAlign = false ∧
    PackerOptions.PackerOptions.conservative = false ∧
    PackerOptions.PackerOptions.padding = 0 ∧
    (∀ args : GenerateArguments,
      args.packerOptions.method = PackMethod.Enum.ExactResolution →
        ∃ atlas co po, args = GenerateArguments.three atlas co po ∧
          po.method = PackMethod.Enum.ExactResolution) ∧
    (∀ atlas co, (GenerateArguments.one atlas).packerOptions = PackerOptions.PackerOptions ∧
      (GenerateArguments.two atlas co).packerOptions = PackerOptions.PackerOptions) ∧
    (∀ (κ : Type) (N : Numerics κ) (fuel : Nat) (charts : List (Mesh × Chart)),
      packCharts N fuel PackerOptions.PackerOptions charts =
        some (N.packPass PackerOptions.PackerOptions charts
          (N.estimateDensity PackerOptions.PackerOptions charts))) := by
  refine ⟨rfl, by decide, rfl, by decide, by decide, rfl, rfl, rfl, rfl, ?_, ?_, ?_⟩
  · intro args h
    cases args with
    | one a => simp [GenerateArguments.packerOptions, PackerOptions.PackerOptions] at h
    | two a co => simp [GenerateArguments.packerOptions, PackerOptions.PackerOptions] at h
    | three a co po => exact ⟨a, co, po, rfl, h⟩
  · intro atlas co
    exact ⟨rfl, rfl⟩
  · intro κ N fuel charts
    rfl

/-- C9: `AddMeshError::Enum` has exactly the three pairwise distinct values
`Success`, `IndexOutOfRange`, `InvalidIndexCount`, with distinct enumerator
values, of which exactly the two other than `Success` are fatal;
`AddMeshWarning::Enum` has exactly the five pairwise distinct values
`AlreadyAddedEdge`, `DegenerateColocalEdge`, `DegenerateEdge`,
`DuplicateEdge`, `ZeroLengthEdge`, with distinct enumerator values. The two
are different types, so a result of `AddMesh` is never a warning kind; a
fatal result is returned exactly for an invalid mesh, the atlas unchanged. -/
theorem addMesh_taxonomy :
    Fintype.card AddMeshError.Enum = 3 ∧
    (∀ e : AddMeshError.Enum, e = AddMeshError.Enum.Success ∨
      e = AddMeshError.Enum.IndexOutOfRange ∨ e = AddMeshError.Enum.InvalidIndexCount) ∧
    [AddMeshError.Enum.Success, AddMeshError.Enum.IndexOutOfRange,
      AddMeshError.Enum.InvalidIndexCount].Nodup ∧
    Function.Injective AddMeshError.Enum.toNat ∧
    (∀ e : AddMeshError.Enum, e.isFatal = true ↔ e ≠ AddMeshError.Enum.Success) ∧
    (Finset.univ.filter (fun e : AddMeshError.Enum => e.isFatal = true)).card = 2 ∧
    Fintype.card AddMeshWarning.Enum = 5 ∧
    (∀ w : AddMeshWarning.Enum, w = AddMeshWarning.Enum.AlreadyAddedEdge ∨
      w = AddMeshWarning.Enum.DegenerateColocalEdge ∨ w = AddMeshWarning.Enum.DegenerateEdge ∨
      w = AddMeshWarning.Enum.DuplicateEdge ∨ w = AddMeshWarning.Enum.ZeroLengthEdge) ∧
    [AddMeshWarning.Enum.AlreadyAddedEdge, AddMeshWarning.Enum.DegenerateColocalEdge,
      AddMeshWarning.Enum.DegenerateEdge, AddMeshWarning.Enum.DuplicateEdge,
      AddMeshWarning.Enum.ZeroLengthEdge].Nodup ∧
    Function.Injective AddMeshWarning.Enum.toNat ∧
    AddMeshError.Enum ≠ AddMeshWarning.Enum ∧
    (∀ (σ : Type) (classify : InputMesh → Bool → List EdgeWarning) (atlas : Atlas)
      (mesh : InputMesh) (cb : Option (AddMeshWarningCallback σ)) (userData : VoidPtr)
      (colocal : Bool) (world : σ),
      ((AddMesh classify atlas mesh cb userData colocal world).1.isFatal = true ↔
        (AddMesh classify atlas mesh cb userData colocal world).2.1 = atlas ∧
          mesh.isValid = false)) := by
  refine ⟨rfl, ?_, by decide, ?_, ?_, by decide, rfl, ?_, by decide, ?_, ?_, ?_⟩
  · intro e
    cases e <;> simp
  · intro a b h
    cases a <;> cases b <;> first | rfl | exact absurd h (by decide)
  · intro e
    cases e <;> simp [AddMeshError.Enum.isFatal]
  · intro w
    cases w <;> simp
  · intro a b h
    cases a <;> cases b <;> first | rfl | exact absurd h (by decide)
  · intro h
    have h3 : Nat.card AddMeshError.Enum = 3 := by
      rw [Nat.card_eq_fintype_card]
      rfl
    have h5 : Nat.card AddMeshWarning.Enum = 5 := by
      rw [Nat.card_eq_fintype_card]
      rfl
    rw [h, h5] at h3
    exact absurd h3 (by decide)
  · intro σ classify atlas mesh cb userData colocal world
    by_cases hv : mesh.isValid = true
    · rw [AddMesh_of_isValid classify atlas mesh cb userData colocal world hv]
      simp [AddMeshError.Enum.isFatal, hv]
    · have hv2 : mesh.isValid = false := by simpa using hv
      obtain ⟨h1, h2⟩ := AddMesh_of_not_isValid classify atlas mesh cb userData colocal world hv2
      rw [h2]
      simp only [hv2, and_self, iff_true]
      revert h1
      cases (AddMesh classify atlas mesh cb userData colocal world).1 <;>
        simp [AddMeshError.Enum.isFatal]

/-- C10: `AddMesh(atlas, mesh)` is the call `AddMesh(atlas, mesh, NULL, NULL,
true)`; a call that leaves out fewer arguments takes the same defaults for
those. Without a callback the caller's state is untouched. A supplied callback
does not change the result code; for an accepted mesh it is called once for
each finding, in order, with the warning kind, the face, the two vertex
indices and the caller's user data, and for a rejected mesh not at all. -/
theorem addMesh_default_arguments {σ : Type} (classify : InputMesh → Bool → List EdgeWarning)
    (atlas : Atlas) (mesh : InputMesh) (world : σ) :
    AddMeshArguments.call classify (AddMeshArguments.two atlas mesh) world =
      AddMesh classify atlas mesh none NULL true world ∧
    AddMeshArguments.call classify (AddMeshArguments.two atlas mesh) world =
      AddMeshArguments.call classify (AddMeshArguments.five atlas mesh none NULL true) world ∧
    (∀ cb, AddMeshArguments.call classify (AddMeshArguments.three atlas mesh cb) world =
      AddMesh classify atlas mesh cb NULL true world) ∧
    (∀ cb userData,
      AddMeshArguments.call classify (AddMeshArguments.four atlas mesh cb userData) world =
        AddMesh classify atlas mesh cb userData true world) ∧
    (AddMeshArguments.call classify (AddMeshArguments.two atlas mesh) world).2.2 = world ∧
    (∀ (cb : AddMeshWarningCallback σ) (userData : VoidPtr) (colocal : Bool),
      (AddMesh classify atlas mesh (some cb) userData colocal world).1 =
          (AddMeshArguments.call classify (AddMeshArguments.two atlas mesh) world).1 ∧
      (mesh.isValid = true →
        (AddMesh classify atlas mesh (some cb) userData colocal world).2.2 =
          (classify mesh colocal).foldl
            (fun w e => cb e.warning e.face e.index0 e.index1 userData w) world) ∧
      (mesh.isValid = false →
        (AddMesh classify atlas mesh (some cb) userData colocal world).2.2 = world)) := by
  refine ⟨rfl, rfl, fun _ => rfl, fun _ _ => rfl, ?_, ?_⟩
  · simp only [AddMeshArguments.call]
    unfold AddMesh
    split_ifs <;> rfl
  · intro cb userData colocal
    refine ⟨?_, ?_, ?_⟩
    · simp only [AddMeshArguments.call]
      unfold AddMesh
      split_ifs <;> rfl
    · intro hv
      rw [AddMesh_of_isValid classify atlas mesh (some cb) userData colocal world hv]
      rfl
    · intro hv
      rw [(AddMesh_of_not_isValid classify atlas mesh (some cb) userData colocal world hv).2]

end xatlas
